import Mathlib

/-!
Verification of the venue-first harvesting pipeline
(`quantum_rankings/build_quantum_dataset_venues.py`).

The Python source is shallowly embedded: dictionaries become structures with
`Option`-valued fields (Python `None` is `none`, and falsy values such as the
empty string are handled explicitly where the source tests truthiness),
Python lists become `List`, the mutable aggregation state becomes an explicit
`AggState` record threaded through step functions, and network access is
abstracted into oracle parameters.  Strings are Lean `String`s; `str.lower`
is modelled by mapping `Char.toLower`, `str.split()` by splitting on
whitespace and dropping empty tokens, and the substring operator `in` by
`List.IsInfix` on the character lists.
-/

namespace QuantumRankings

/-- Models Python `s.lower()` (ASCII case folding suffices for the data in
this pipeline). -/
def pyLower (s : String) : String := String.mk (s.data.map Char.toLower)

/-- Models Python `s.strip()`. -/
def pyStrip (s : String) : String := s.trim

/-- Models Python `x or d` for an optional string `x` (both `None` and the
empty string are falsy and fall through to the default). -/
def pyOrStr : Option String → String → String
  | some s, d => if s = "" then d else s
  | none, d => d

/-- Models the truthiness test Python applies to optional identifier fields:
`None` and the empty string are falsy. -/
def optTruthy : Option String → Option String
  | some s => if s = "" then none else some s
  | none => none

/-- Models the Python substring test `needle in hay`. -/
def strContains (hay needle : String) : Bool := decide (needle.data <:+: hay.data)

/-- Models Python `s.split()` (split on whitespace runs, dropping empties). -/
def pySplitWs (s : String) : List String :=
  (s.split Char.isWhitespace).filter (fun t => t ≠ "")

/-- Models Python `" ".join(keys)`. -/
def joinSpace (keys : List String) : String := String.intercalate " " keys

/-- Python dict lookup `d.get(k)` on an association list. -/
def alookup {κ α : Type} [DecidableEq κ] : List (κ × α) → κ → Option α
  | [], _ => none
  | (k, v) :: tl, key => if k = key then some v else alookup tl key

/-- Overwrite the value stored at `key` (leaving other bindings alone). -/
def aupdate {α : Type} : List (String × α) → String → α → List (String × α)
  | [], _, _ => []
  | (k, v) :: tl, key, nv =>
    if k = key then (k, nv) :: aupdate tl key nv else (k, v) :: aupdate tl key nv

/-- Models Python dict assignment `d[k] = v` on an association list:
overwrite the binding if the key exists, otherwise append it. -/
def dictInsert {α : Type} (l : List (String × α)) (k : String) (v : α) : List (String × α) :=
  if (alookup l k).isSome then aupdate l k v
  else l ++ [(k, v)]

/-- The curated keyword list `QUANTUM_KEYWORDS` from the source. -/
def QUANTUM_KEYWORDS : List String := [
  "quantum",
  "qubit",
  "qudit",
  "qutrit",
  "quantum algorithm",
  "quantum circuit",
  "quantum optimization",
  "variational quantum",
  "vqa",
  "vqe",
  "qaoa",
  "quantum walk",
  "boson sampling",
  "hamiltonian simulation",
  "quantum simulation",
  "entanglement",
  "bell inequality",
  "nonlocality",
  "quantum key distribution",
  "qkd",
  "device-independent",
  "measurement-based quantum",
  "mbqc",
  "quantum advantage",
  "quantum supremacy",
  "bqp",
  "qma",
  "qmma",
  "qcma",
  "qszk",
  "boson-sampling",
  "classical simulation of quantum",
  "quantum error correction",
  "qec",
  "surface code",
  "stabilizer code",
  "fault tolerant",
  "fault-tolerant",
  "quantum channel",
  "quantum capacity",
  "quantum information",
  "quantum entropy",
  "coherent information",
  "quantum mutual information",
  "quantum cryptography",
  "post-quantum",
  "quantum randomness",
  "randomness amplification",
  "quantum de finetti",
  "mip",
  "mip*",
  "nonlocal game",
  "nonlocal games",
  "entangled game",
  "entangled games",
  "entangled prover",
  "entangled provers",
  "xor game",
  "xor games",
  "interactive proof",
  "interactive proofs",
  "multiprover",
  "multi-prover",
  "rigidity",
  "rigidity theorem",
  "self-testing",
  "self testing",
  "quantum pcp",
  "pcp for entangled",
  "quantum low-degree test",
  "classical verification of quantum",
  "verifiable quantum"]

/-- The `COUNTRY_TO_REGION` dict literal, in source order.  The Python dict
literal contains duplicate keys (`AZ`, `KZ`, `EG`, `DZ`); as in Python, the
later binding wins, which `pyDictGet` implements by looking the key up in the
reversed list. -/
def COUNTRY_TO_REGION : List (String × String) := [
  ("US", "North America"),
  ("CA", "North America"),
  ("MX", "North America"),
  ("GL", "North America"),
  ("AL", "Europe"),
  ("AD", "Europe"),
  ("AM", "Europe"),
  ("AT", "Europe"),
  ("AZ", "Europe"),
  ("BA", "Europe"),
  ("BE", "Europe"),
  ("BG", "Europe"),
  ("BY", "Europe"),
  ("CH", "Europe"),
  ("CY", "Europe"),
  ("CZ", "Europe"),
  ("DE", "Europe"),
  ("DK", "Europe"),
  ("EE", "Europe"),
  ("ES", "Europe"),
  ("FI", "Europe"),
  ("FR", "Europe"),
  ("GB", "Europe"),
  ("GE", "Europe"),
  ("GR", "Europe"),
  ("HR", "Europe"),
  ("HU", "Europe"),
  ("IE", "Europe"),
  ("IS", "Europe"),
  ("IT", "Europe"),
  ("KZ", "Asia"),
  ("LI", "Europe"),
  ("LT", "Europe"),
  ("LU", "Europe"),
  ("LV", "Europe"),
  ("MC", "Europe"),
  ("MD", "Europe"),
  ("ME", "Europe"),
  ("MK", "Europe"),
  ("MT", "Europe"),
  ("NL", "Europe"),
  ("NO", "Europe"),
  ("PL", "Europe"),
  ("PT", "Europe"),
  ("RO", "Europe"),
  ("RS", "Europe"),
  ("RU", "Europe"),
  ("SE", "Europe"),
  ("SI", "Europe"),
  ("SK", "Europe"),
  ("SM", "Europe"),
  ("UA", "Europe"),
  ("VA", "Europe"),
  ("UK", "Europe"),
  ("AE", "Asia"),
  ("AF", "Asia"),
  ("AZ", "Asia"),
  ("BH", "Asia"),
  ("BD", "Asia"),
  ("BN", "Asia"),
  ("BT", "Asia"),
  ("CN", "Asia"),
  ("EG", "Africa"),
  ("HK", "Asia"),
  ("ID", "Asia"),
  ("IL", "Asia"),
  ("IN", "Asia"),
  ("IQ", "Asia"),
  ("IR", "Asia"),
  ("JO", "Asia"),
  ("JP", "Asia"),
  ("KG", "Asia"),
  ("KH", "Asia"),
  ("KP", "Asia"),
  ("KR", "Asia"),
  ("KW", "Asia"),
  ("KZ", "Asia"),
  ("LA", "Asia"),
  ("LB", "Asia"),
  ("LK", "Asia"),
  ("MM", "Asia"),
  ("MN", "Asia"),
  ("MO", "Asia"),
  ("MY", "Asia"),
  ("NP", "Asia"),
  ("OM", "Asia"),
  ("PH", "Asia"),
  ("PK", "Asia"),
  ("PS", "Asia"),
  ("QA", "Asia"),
  ("SA", "Asia"),
  ("SG", "Asia"),
  ("SY", "Asia"),
  ("TH", "Asia"),
  ("TJ", "Asia"),
  ("TL", "Asia"),
  ("TM", "Asia"),
  ("TR", "Europe"),
  ("TW", "Asia"),
  ("UZ", "Asia"),
  ("VN", "Asia"),
  ("YE", "Asia"),
  ("AU", "Oceania"),
  ("NZ", "Oceania"),
  ("FJ", "Oceania"),
  ("PG", "Oceania"),
  ("SB", "Oceania"),
  ("TO", "Oceania"),
  ("VU", "Oceania"),
  ("WS", "Oceania"),
  ("NR", "Oceania"),
  ("KI", "Oceania"),
  ("TV", "Oceania"),
  ("FM", "Oceania"),
  ("MH", "Oceania"),
  ("PW", "Oceania"),
  ("AR", "South America"),
  ("BO", "South America"),
  ("BR", "South America"),
  ("CL", "South America"),
  ("CO", "South America"),
  ("EC", "South America"),
  ("GY", "South America"),
  ("PE", "South America"),
  ("PY", "South America"),
  ("SR", "South America"),
  ("UY", "South America"),
  ("VE", "South America"),
  ("BZ", "North America"),
  ("CR", "North America"),
  ("GT", "North America"),
  ("HN", "North America"),
  ("NI", "North America"),
  ("PA", "North America"),
  ("SV", "North America"),
  ("CU", "North America"),
  ("DO", "North America"),
  ("HT", "North America"),
  ("JM", "North America"),
  ("TT", "North America"),
  ("BB", "North America"),
  ("BS", "North America"),
  ("DZ", "Africa"),
  ("AO", "Africa"),
  ("BF", "Africa"),
  ("BI", "Africa"),
  ("BJ", "Africa"),
  ("BW", "Africa"),
  ("CD", "Africa"),
  ("CF", "Africa"),
  ("CG", "Africa"),
  ("CI", "Africa"),
  ("CM", "Africa"),
  ("CV", "Africa"),
  ("DJ", "Africa"),
  ("DZ", "Africa"),
  ("EG", "Africa"),
  ("ER", "Africa"),
  ("ET", "Africa"),
  ("GA", "Africa"),
  ("GH", "Africa"),
  ("GM", "Africa"),
  ("GN", "Africa"),
  ("GQ", "Africa"),
  ("KE", "Africa"),
  ("KM", "Africa"),
  ("LR", "Africa"),
  ("LS", "Africa"),
  ("LY", "Africa"),
  ("MA", "Africa"),
  ("MG", "Africa"),
  ("ML", "Africa"),
  ("MR", "Africa"),
  ("MU", "Africa"),
  ("MW", "Africa"),
  ("MZ", "Africa"),
  ("NA", "Africa"),
  ("NE", "Africa"),
  ("NG", "Africa"),
  ("RW", "Africa"),
  ("SC", "Africa"),
  ("SD", "Africa"),
  ("SL", "Africa"),
  ("SN", "Africa"),
  ("SO", "Africa"),
  ("SS", "Africa"),
  ("ST", "Africa"),
  ("SZ", "Africa"),
  ("TD", "Africa"),
  ("TG", "Africa"),
  ("TN", "Africa"),
  ("TZ", "Africa"),
  ("UG", "Africa"),
  ("ZA", "Africa"),
  ("ZW", "Africa"),
  ("ZM", "Africa")]

/-- Python dict lookup on a literal association list with later duplicate
keys overriding earlier ones. -/
def pyDictGet (l : List (String × String)) (k : String) : Option String :=
  alookup l.reverse k

/-- Models `str.upper()`. -/
def pyUpper (s : String) : String := String.mk (s.data.map Char.toUpper)

/-- `region_from_country_code` from the source: falsy code maps to
`"Other"`, otherwise the upper-cased code is looked up with default
`"Other"`. -/
def region_from_country_code (code : Option String) : String :=
  match optTruthy code with
  | none => "Other"
  | some c => (pyDictGet COUNTRY_TO_REGION (pyUpper c)).getD "Other"

/-- OpenAlex author sub-record (`authorship["author"]`). -/
structure AuthorRec where
  id : Option String
  display_name : Option String
deriving DecidableEq

/-- OpenAlex institution sub-record. -/
structure InstRec where
  id : Option String
  display_name : Option String
  country_code : Option String
deriving DecidableEq

/-- One element of a work's `authorships` list.  `author` and
`institutions` are optional because the source reads them with
`auth.get(...) or default`. -/
structure Authorship where
  author : Option AuthorRec
  institutions : Option (List InstRec)
deriving DecidableEq

/-- A raw OpenAlex work record, restricted to the fields the pipeline
reads.  An absent field is `none`; the slimmed cache records produced by
`_slim_openalex_work` are represented in the same type with the dropped
fields set to `none`. -/
structure Work where
  id : Option String
  title : Option String
  display_name : Option String
  publication_year : Option Int
  abstract : Option String
  abstract_inverted_index : Option (List String)
  authorships : List Authorship
deriving DecidableEq

/-- The value of the Python expression
`work.get("abstract") or work.get("abstract_inverted_index") or ""` followed
by the dict/string case split in `is_quantum_paper`: a dict abstract is
flattened by joining its keys with spaces, anything else is lowered as a
string. -/
def abstractText (w : Work) : String :=
  match w.abstract with
  | some s =>
    if s ≠ "" then pyLower s
    else match w.abstract_inverted_index with
      | some ks => if ks ≠ [] then pyLower (joinSpace ks) else ""
      | none => ""
  | none =>
    match w.abstract_inverted_index with
    | some ks => if ks ≠ [] then pyLower (joinSpace ks) else ""
    | none => ""

/-- The text `is_quantum_paper` scans: lowercased title (falling back to
`display_name`), a space, and the flattened lowercased abstract. -/
def workText (w : Work) : String :=
  pyLower (pyOrStr w.title (pyOrStr w.display_name "")) ++ " " ++ abstractText w

/-- `is_quantum_paper` from the source. -/
def is_quantum_paper (w : Work) (require_keywords : Bool) : Bool :=
  if !require_keywords then true
  else QUANTUM_KEYWORDS.any (fun kw => strContains (workText w) kw)

/-- A candidate returned by the OpenAlex `/sources` search.  `id` is read
with `src["id"]` (mandatory), `display_name` with `src.get(...)`. -/
structure SourceRec where
  id : String
  display_name : Option String
deriving DecidableEq

/-- `find_source_ids_for_venue` from the source, with the network call
abstracted: `none` models the `except`-path (any transport error), `some
results` a successful response.  The token list is computed inside the loop
exactly as in the source. -/
def sourceSearchStep (search : String) (ids : List String) (src : SourceRec) : List String :=
  let name := pyLower (pyOrStr src.display_name "")
  let tokens := (pySplitWs search).map pyLower
  if tokens.all (fun tok => strContains name tok) then ids ++ [src.id] else ids

def find_source_ids_for_venue (fetched : Option (List SourceRec)) (search : String) :
    List String :=
  match fetched with
  | none => []
  | some results => results.foldl (sourceSearchStep search) []

/-- The acceptance predicate stated by the spec: every whitespace token of
the search term is a substring of the lowercased display name. -/
def matchesAllTokens (search : String) (src : SourceRec) : Bool :=
  (pySplitWs search).all
    (fun tok => strContains (pyLower (pyOrStr src.display_name "")) (pyLower tok))

theorem sourceSearchStep_eq (search : String) (ids : List String) (src : SourceRec) :
    sourceSearchStep search ids src =
      if matchesAllTokens search src then ids ++ [src.id] else ids := by
  show (if ((pySplitWs search).map pyLower).all
      (fun tok => strContains (pyLower (pyOrStr src.display_name "")) tok) then
        ids ++ [src.id] else ids) = _
  rw [List.all_map]
  rfl

theorem find_source_ids_foldl_eq (search : String) (rs : List SourceRec)
    (acc : List String) :
    rs.foldl (sourceSearchStep search) acc
      = acc ++ (rs.filter (matchesAllTokens search)).map (fun s => s.id) := by
  induction rs generalizing acc with
  | nil => simp
  | cons hd tl ih =>
    rw [List.foldl_cons, sourceSearchStep_eq, List.filter_cons]
    by_cases h : matchesAllTokens search hd = true
    · simp [h, ih]
    · have h' : matchesAllTokens search hd = false := by simpa using h
      simp [h', ih]

/-! ## Paginating Work Iterator (`iter_works_for_source._iter_year_range`) -/

/-- Events printed by `_iter_year_range`.  The source prints exactly one
kind of warning (the 409 out-of-range-page warning); the constructor
`warnCapExceeded` is the warning the specification describes for a terminal
single-year range that is still over the 10k cap, included here so that its
absence from every run can be stated. -/
inductive LogEvent where
  | warn409 (y0 y1 : Int) (page : Nat)
  | warnCapExceeded (y0 y1 : Int)
deriving DecidableEq

/-- Outcome of one `openalex_get("/works", ...)` call: a successful
response with the reported `meta["count"]` (absent or non-integer counts are
`none`) and the `results` list, an HTTP 409, or any other error. -/
inductive PageResp where
  | ok (total : Option Nat) (results : List Work)
  | err409
  | errOther
deriving DecidableEq

/-- The network oracle: response for the query on years `[y0, y1]` at a
given page. -/
def PageOracle : Type := Int → Int → Nat → PageResp

/-- What the generator produced: the works yielded in order, the warnings
printed, and whether a non-409 HTTP error was re-raised (works yielded
before the raise are kept; the raise aborts everything after it). -/
structure IterOut where
  works : List Work
  logs : List LogEvent
  raised : Bool
deriving DecidableEq

/-- `max_pages_by_api` from `iter_works_for_source`: `10000 // per_page`
when `per_page > 0` (else 50), clamped by the optional `max_pages`. -/
def max_pages_by_api (perPage : Nat) (maxPages : Option Nat) : Nat :=
  let m := if 0 < perPage then 10000 / perPage else 50
  match maxPages with
  | some mp => min m mp
  | none => m

/-- `pages_from_count`: `ceil(total / per_page)` computed as
`(total + per_page - 1) // per_page`. -/
def pagesFromCount (total perPage : Nat) : Nat := (total + perPage - 1) / perPage

/-- `effective_page_limit`: the API page bound, further clamped by the page
count implied by `meta["count"]` when that count is an integer and
`per_page > 0`. -/
def effectivePageLimit (maxPagesByApi perPage : Nat) (total : Option Nat) : Nat :=
  match total with
  | some t => if 0 < perPage then min maxPagesByApi (pagesFromCount t perPage) else maxPagesByApi
  | none => maxPagesByApi

/-- The `total > 10000` test (false when the reported count is absent). -/
def overCapTotal : Option Nat → Bool
  | some t => 10000 < t
  | none => false

/-- The `while True` pagination loop of `_iter_year_range`, for one range
that was not split.  `fetch p` models the guarded `openalex_get` for page
`p ≥ 2`; page 1 reuses the probe's `results`.  A 409 prints the warning and
stops; any other error re-raises (`raised := true`); an empty page or
passing `effective_page_limit` stops quietly. -/
def pageLoop (fetch : Nat → PageResp) (limit : Nat) (y0 y1 : Int)
    (page : Nat) (firstResults : List Work) : IterOut :=
  if page ≠ 1 ∧ limit < page then ⟨[], [], false⟩
  else
    match (if page = 1 then PageResp.ok none firstResults else fetch page) with
    | .err409 => ⟨[], [LogEvent.warn409 y0 y1 page], false⟩
    | .errOther => ⟨[], [], true⟩
    | .ok _ current =>
      if current = [] then ⟨[], [], false⟩
      else if h : limit < page + 1 then ⟨current, [], false⟩
      else
        let rest := pageLoop fetch limit y0 y1 (page + 1) []
        ⟨current ++ rest.works, rest.logs, rest.raised⟩
termination_by limit - page
decreasing_by omega

/-- `_iter_year_range`, with explicit recursion fuel (`none` means the fuel
ran out before the recursion bottomed).  Probing page 1 is not wrapped in a
`try`, so any error there propagates (`raised`).  When the reported total
exceeds 10000 and `y0 < y1`, the range is bisected at `(y0 + y1) // 2`
(Python floor division, `Int.fdiv`) and both halves run; otherwise the
pagination loop runs under the effective page limit. -/
def iterYearRangeF (oracle : PageOracle) (perPage maxPagesByApi : Nat) :
    Nat → Int → Int → Option IterOut
  | 0, _, _ => none
  | fuel + 1, y0, y1 =>
    match oracle y0 y1 1 with
    | .err409 => some ⟨[], [], true⟩
    | .errOther => some ⟨[], [], true⟩
    | .ok total results =>
      if overCapTotal total && decide (y0 < y1) then
        let mid := Int.fdiv (y0 + y1) 2
        match iterYearRangeF oracle perPage maxPagesByApi fuel y0 mid,
              iterYearRangeF oracle perPage maxPagesByApi fuel (mid + 1) y1 with
        | some l, some r =>
          if l.raised then some l
          else some ⟨l.works ++ r.works, l.logs ++ r.logs, r.raised⟩
        | _, _ => none
      else
        some (pageLoop (oracle y0 y1) (effectivePageLimit maxPagesByApi perPage total)
          y0 y1 1 results)

/-! ## Cross-Catalog Resolution Bridge: OpenAlex cache and resolution -/

/-- `_openalex_cache`: the two persistent mappings, `doi -> slim work` and
`title-key -> slim work`. -/
structure OpenAlexCache where
  doi : List (String × Work)
  title : List (String × Work)
deriving DecidableEq

/-- Models Python `a or b` on two optional strings. -/
def pyOrOpt (a b : Option String) : Option String :=
  match a with
  | some s => if s = "" then b else some s
  | none => b

/-- `_slim_openalex_work`: keep only the fields the pipeline uses; the
abstract fields are dropped. -/
def _slim_openalex_work (w : Work) : Work where
  id := w.id
  title := pyOrOpt w.title w.display_name
  display_name := w.display_name
  publication_year := w.publication_year
  abstract := none
  abstract_inverted_index := none
  authorships := w.authorships.map (fun auth =>
    let a := auth.author.getD ⟨none, none⟩
    { author := some ⟨a.id, a.display_name⟩,
      institutions := some ((auth.institutions.getD []).map
        (fun inst => ⟨inst.id, inst.display_name, inst.country_code⟩)) })

/-- Outcome of the `/works/doi:<doi>` call: a successful response (whose
body may still be falsy, modelled by `none`), an HTTP 404, or any other
HTTP/generic error. -/
inductive DoiNet where
  | ok (data : Option Work)
  | notFound
  | err
deriving DecidableEq

/-- Outcome of the `/works?search=<title>` call. -/
inductive TitleNet where
  | ok (results : List Work)
  | err
deriving DecidableEq

/-- `fetch_openalex_work_by_doi`, with the network abstracted into `net`.
Returns the resolved slim work (`none` models the falsy `{}`), the cache
after the call, and whether the network was reached. -/
def fetch_openalex_work_by_doi (net : String → DoiNet) (cache : OpenAlexCache)
    (doi : String) : Option Work × OpenAlexCache × Bool :=
  if doi = "" then (none, cache, false)
  else
    match alookup cache.doi doi with
    | some w => (some w, cache, false)
    | none =>
      match net doi with
      | .ok (some data) =>
        let slim := _slim_openalex_work data
        (some slim, { cache with doi := dictInsert cache.doi doi slim }, true)
      | .ok none => (none, cache, true)
      | .notFound => (none, cache, true)
      | .err => (none, cache, true)

/-- The cache key built by `search_openalex_work_by_title`:
`lowercased-title`, with `|<year>` appended when a year hint is given. -/
def titleCacheKey (title : String) (year_hint : Option Int) : String :=
  match year_hint with
  | some y => pyLower title ++ "|" ++ toString y
  | none => pyLower title

/-- Candidate selection in `search_openalex_work_by_title`: first result
whose year is within one year of the hint, else the first result. -/
def chooseTitleResult (results : List Work) (year_hint : Option Int) : Work :=
  match results.find? (fun w =>
    match year_hint, w.publication_year with
    | some h, some y => decide ((y - h).natAbs ≤ 1)
    | _, _ => false) with
  | some w => w
  | none => results.headD ⟨none, none, none, none, none, none, []⟩

/-- `search_openalex_work_by_title`, with the network abstracted.  The
stripped title and the cache key are written out at each use site (the
source binds them once). -/
def search_openalex_work_by_title (net : String → Option Int → TitleNet)
    (cache : OpenAlexCache) (title0 : String) (year_hint : Option Int) :
    Option Work × OpenAlexCache × Bool :=
  if pyStrip title0 = "" then (none, cache, false)
  else
    match alookup cache.title (titleCacheKey (pyStrip title0) year_hint) with
    | some w => (some w, cache, false)
    | none =>
      match net (pyStrip title0) year_hint with
      | .err => (none, cache, true)
      | .ok results =>
        if results = [] then (none, cache, true)
        else
          (some (_slim_openalex_work (chooseTitleResult results year_hint)),
           ⟨cache.doi,
            dictInsert cache.title (titleCacheKey (pyStrip title0) year_hint)
              (_slim_openalex_work (chooseTitleResult results year_hint))⟩,
           true)

/-! ## Aggregation state machine -/

/-- Value of the `institutions` dict. -/
structure InstInfo where
  name : String
  region : String
deriving DecidableEq

/-- A publication record `{year, venue, title}`. -/
structure Pub where
  year : Int
  venue : String
  title : String
deriving DecidableEq

/-- Value of the `author_inst` dict, keyed by `(author_id, inst_id)`. -/
structure Entry where
  name : String
  institution_id : String
  publications : List Pub
deriving DecidableEq

/-- The mutable aggregation state threaded through both harvesting paths:
the `institutions` dict, the `author_inst` dict, and the run-global
`seen_work_ids` set (as insertion-ordered association/element lists). -/
structure AggState where
  institutions : List (String × InstInfo)
  author_inst : List ((String × String) × Entry)
  seen_work_ids : List String
deriving DecidableEq

/-- The guarded append of `build_dataset_from_venues`: append unless an
identical `(year, venue, title)` triple is already present. -/
def venuesAppendPub (pubs : List Pub) (pub : Pub) : List Pub :=
  if pubs.any (fun p => p.year == pub.year && p.venue == pub.venue && p.title == pub.title)
  then pubs else pubs ++ [pub]

/-- The unconditional `publications.append(pub_entry)` of
`harvest_dblp_venue`. -/
def dblpAppendPub (pubs : List Pub) (pub : Pub) : List Pub := pubs ++ [pub]

/-- Apply `f` to the publication list of the entry stored at `key`. -/
def updateEntryPubs : List ((String × String) × Entry) → (String × String) →
    (List Pub → List Pub) → List ((String × String) × Entry)
  | [], _, _ => []
  | (k, e) :: tl, key, f =>
    if k = key then (k, { e with publications := f e.publications }) :: updateEntryPubs tl key f
    else (k, e) :: updateEntryPubs tl key f

/-- The institution-level body shared by both paths: skip falsy institution
ids, register the institution on first sighting, create the
`(author_id, inst_id)` entry on first sighting, then append the publication
record with the path's append policy. -/
def aggregateAuthInst (appendPub : List Pub → Pub → List Pub) (pub : Pub)
    (aid authorName : String) (st : AggState) (inst : InstRec) : AggState :=
  match optTruthy inst.id with
  | none => st
  | some iid =>
    let st1 := if (alookup st.institutions iid).isSome then st
      else { st with institutions := st.institutions ++
        [(iid, ⟨pyOrStr inst.display_name "Unknown institution",
                region_from_country_code inst.country_code⟩)] }
    let key := (aid, iid)
    let st2 := if (alookup st1.author_inst key).isSome then st1
      else { st1 with author_inst := st1.author_inst ++ [(key, ⟨authorName, iid, []⟩)] }
    { st2 with author_inst :=
        updateEntryPubs st2.author_inst key (fun pubs => appendPub pubs pub) }

/-- The per-authorship body shared by both paths: an authorship with a
falsy author id or no institutions contributes nothing. -/
def aggregateAuthorship (appendPub : List Pub → Pub → List Pub) (pub : Pub)
    (st : AggState) (auth : Authorship) : AggState :=
  let author := auth.author.getD ⟨none, none⟩
  let insts := auth.institutions.getD []
  match optTruthy author.id, insts with
  | some aid, _ :: _ =>
    insts.foldl (aggregateAuthInst appendPub pub aid (pyOrStr author.display_name "Unknown")) st
  | _, _ => st

/-- The full authorship loop for one work. -/
def aggregateWork (appendPub : List Pub → Pub → List Pub) (pub : Pub)
    (st : AggState) (auths : List Authorship) : AggState :=
  auths.foldl (aggregateAuthorship appendPub pub) st

/-- Lines 1241-1286 of `build_dataset_from_venues`: the processing applied
to a work after the `seen_work_ids` dedup — year check, relevance filter,
title extraction, aggregation with the guarded append. -/
def processWorkVenuesBody (code : String) (require_keywords : Bool)
    (st : AggState) (w : Work) : AggState :=
  match w.publication_year with
  | none => st
  | some year =>
    if !is_quantum_paper w require_keywords then st
    else
      let t0 := pyStrip (pyOrStr w.title (pyOrStr w.display_name ""))
      let title := if t0 = "" then "(untitled)" else t0
      aggregateWork venuesAppendPub ⟨year, code, title⟩ st w.authorships

/-- The full per-work step of the direct-iteration path (lines 1235-1286):
a truthy work id already in `seen_work_ids` skips the work; a truthy unseen
id is added to the set before any other check; a falsy id bypasses the
dedup entirely. -/
def processWorkVenues (code : String) (require_keywords : Bool)
    (st : AggState) (w : Work) : AggState :=
  match optTruthy w.id with
  | some wid =>
    if wid ∈ st.seen_work_ids then st
    else processWorkVenuesBody code require_keywords
      { st with seen_work_ids := st.seen_work_ids ++ [wid] } w
  | none => processWorkVenuesBody code require_keywords st w

/-- Lines 1074-1114 of `harvest_dblp_venue`: the processing applied to a
resolved work after the `seen_work_ids` dedup.  The year falls back to the
DBLP `year_int` when `publication_year` is falsy, the year must lie in the
harvest range, then the relevance filter, title extraction (falling back to
the DBLP title) and aggregation with the unconditional append run. -/
def dblpEffectiveYear (w : Work) (year_int : Int) : Int :=
  match w.publication_year with
  | some y => if y = 0 then year_int else y
  | none => year_int

def processResolvedDblpBody (code : String) (require_keywords : Bool)
    (start_year end_year year_int : Int) (dblp_title : String)
    (st : AggState) (w : Work) : AggState :=
  let year := dblpEffectiveYear w year_int
  if year < start_year ∨ end_year < year then st
  else if !is_quantum_paper w require_keywords then st
  else
    let t0 := pyStrip (pyOrStr w.title (pyOrStr w.display_name dblp_title))
    let final_title := if t0 = "" then "(untitled)" else t0
    aggregateWork dblpAppendPub ⟨year, code, final_title⟩ st w.authorships

/-- The full per-resolved-work step of the Cross-Catalog Resolution Bridge
path (lines 1068-1114), with the same dedup discipline as the direct
path. -/
def processResolvedDblp (code : String) (require_keywords : Bool)
    (start_year end_year year_int : Int) (dblp_title : String)
    (st : AggState) (w : Work) : AggState :=
  match optTruthy w.id with
  | some wid =>
    if wid ∈ st.seen_work_ids then st
    else processResolvedDblpBody code require_keywords start_year end_year year_int
      dblp_title { st with seen_work_ids := st.seen_work_ids ++ [wid] } w
  | none => processResolvedDblpBody code require_keywords start_year end_year year_int
      dblp_title st w

/-! ## Threshold filtering (lines 1288-1332 of `build_dataset_from_venues`) -/

/-- `inst_total_pubs`: a `defaultdict(int)` summing surviving publication
counts per institution, built in iteration order. -/
def instTotalsStep (acc : List (String × Nat)) (e : (String × String) × Entry) :
    List (String × Nat) :=
  match alookup acc e.1.2 with
  | some c => aupdate acc e.1.2 (c + e.2.publications.length)
  | none => acc ++ [(e.1.2, e.2.publications.length)]

def instTotals (ai : List ((String × String) × Entry)) : List (String × Nat) :=
  ai.foldl instTotalsStep []

/-- Stable descending insertion for `sorted(..., key=count, reverse=True)`. -/
def insertByCountDesc (cnt : String → Nat) (x : String) : List String → List String
  | [] => [x]
  | y :: ys => if cnt y < cnt x then x :: y :: ys else y :: insertByCountDesc cnt x ys

/-- A stable descending sort by count, modelling Python `sorted` with
`reverse=True`. -/
def sortByCountDesc (cnt : String → Nat) (l : List String) : List String :=
  l.foldr (insertByCountDesc cnt) []

/-- `keep_insts` before the cap: all institutions with a surviving entry,
filtered by the minimum when `min_papers_per_institution > 0`. -/
def keepAfterMin (totals : List (String × Nat)) (minI : Nat) : List String :=
  if 0 < minI then (totals.filter (fun p => minI ≤ p.2)).map Prod.fst
  else totals.map Prod.fst

/-- The optional top-K cap: when configured and exceeded, keep the first
`k` institutions by descending total count. -/
def keepAfterCap (totals : List (String × Nat)) (keep : List String)
    (maxInst : Option Nat) : List String :=
  match maxInst with
  | none => keep
  | some k =>
    if k < keep.length
    then (sortByCountDesc (fun i => (alookup totals i).getD 0) keep).take k
    else keep

/-- The `keep_insts` set of the filtering pipeline: totals over the entries
surviving the author threshold, restricted by the institution minimum and
the top-K cap. -/
def keepSet (ai : List ((String × String) × Entry)) (minA minI : Nat)
    (maxInst : Option Nat) : List String :=
  keepAfterCap (instTotals (ai.filter (fun e => decide (minA ≤ e.2.publications.length))))
    (keepAfterMin (instTotals (ai.filter (fun e => decide (minA ≤ e.2.publications.length))))
      minI)
    maxInst

/-- The post-harvest filtering pipeline (lines 1288-1332): drop entries
below the author threshold, compute per-institution totals, apply the
institution minimum and the top-K cap, then drop entries and institutions
outside the kept set.  Returns the retained `(author, institution)` entries
and the retained institutions. -/
def applyThresholds (ai : List ((String × String) × Entry))
    (insts : List (String × InstInfo)) (minA minI : Nat) (maxInst : Option Nat) :
    List ((String × String) × Entry) × List (String × InstInfo) :=
  ((ai.filter (fun e => decide (minA ≤ e.2.publications.length))).filter
      (fun e => decide (e.1.2 ∈ keepSet ai minA minI maxInst)),
   insts.filter (fun p => decide (p.1 ∈ keepSet ai minA minI maxInst)))

/-! ## Helper lemmas on association lists and filters -/

theorem alookup_aupdate_self {α : Type} (l : List (String × α)) (k : String) (v : α) :
    alookup (aupdate l k v) k = (alookup l k).map (fun _ => v) := by
  induction l with
  | nil => rfl
  | cons hd tl ih =>
    obtain ⟨a, b⟩ := hd
    by_cases h : a = k
    · subst h
      simp [aupdate, alookup, ih]
    · simp [aupdate, alookup, h, ih]

theorem alookup_aupdate_ne {α : Type} (l : List (String × α)) (k k' : String)
    (v : α) (h : k' ≠ k) :
    alookup (aupdate l k v) k' = alookup l k' := by
  induction l with
  | nil => rfl
  | cons hd tl ih =>
    obtain ⟨a, b⟩ := hd
    by_cases hk : a = k
    · subst hk
      simp [aupdate, alookup, Ne.symm h, ih]
    · by_cases hk' : a = k'
      · simp [aupdate, alookup, hk, hk', h, ih]
      · simp [aupdate, alookup, hk, hk', ih]

theorem keys_aupdate {α : Type} (l : List (String × α)) (k : String) (v : α) :
    (aupdate l k v).map Prod.fst = l.map Prod.fst := by
  induction l with
  | nil => rfl
  | cons hd tl ih =>
    obtain ⟨a, b⟩ := hd
    by_cases h : a = k
    · simp [aupdate, h, ih]
    · simp [aupdate, h, ih]

theorem alookup_append {α : Type} (l₁ l₂ : List (String × α)) (k : String) :
    alookup (l₁ ++ l₂) k = (alookup l₁ k).or (alookup l₂ k) := by
  induction l₁ with
  | nil => simp [alookup]
  | cons hd tl ih =>
    obtain ⟨a, b⟩ := hd
    by_cases h : a = k
    · simp [alookup, h]
    · simp [alookup, h, ih]

theorem alookup_eq_none_iff {α : Type} (l : List (String × α)) (k : String) :
    alookup l k = none ↔ k ∉ l.map Prod.fst := by
  induction l with
  | nil => simp [alookup]
  | cons hd tl ih =>
    obtain ⟨a, b⟩ := hd
    by_cases h : a = k
    · subst h
      simp [alookup]
    · simp [alookup, h, ih, Ne.symm h]

theorem alookup_mem {α : Type} (l : List (String × α)) (k : String) (v : α)
    (h : alookup l k = some v) : (k, v) ∈ l := by
  induction l with
  | nil => simp [alookup] at h
  | cons hd tl ih =>
    obtain ⟨a, b⟩ := hd
    by_cases hk : a = k
    · subst hk
      simp [alookup] at h
      exact List.mem_cons.mpr (Or.inl (by rw [h]))
    · simp only [alookup, if_neg hk] at h
      exact List.mem_cons_of_mem (a, b) (ih h)

theorem alookup_of_mem_nodup {α : Type} (l : List (String × α)) (k : String) (v : α)
    (hnd : (l.map Prod.fst).Nodup) (h : (k, v) ∈ l) : alookup l k = some v := by
  induction l with
  | nil => simp at h
  | cons hd tl ih =>
    obtain ⟨a, b⟩ := hd
    simp only [List.map_cons, List.nodup_cons] at hnd
    rcases List.mem_cons.mp h with h1 | h2
    · have hk : k = a := (congrArg Prod.fst h1 : (k, v).1 = (a, b).1)
      have hv : v = b := (congrArg Prod.snd h1 : (k, v).2 = (a, b).2)
      subst hk
      simp [alookup, hv]
    · have hk : a ≠ k := by
        intro hek
        exact hnd.1 (hek ▸ (List.mem_map.mpr ⟨(k, v), h2, rfl⟩))
      simp only [alookup, if_neg hk]
      exact ih hnd.2 h2

theorem filter_of_filter_stronger {α : Type} (l : List α) (p q : α → Bool)
    (h : ∀ a ∈ l, q a = true → p a = true) :
    l.filter q = (l.filter p).filter q := by
  rw [List.filter_filter]
  apply List.filter_congr
  intro a ha
  by_cases hq : q a = true
  · simp [hq, h a ha hq]
  · have : q a = false := by simpa using hq
    simp [this]

theorem length_filter_keys_mem {β : Type} (l : List (String × β)) (s : List String)
    (hl : (l.map Prod.fst).Nodup) (hs : s.Nodup) (hsub : ∀ x ∈ s, x ∈ l.map Prod.fst) :
    (l.filter (fun p => decide (p.1 ∈ s))).length = s.length := by
  induction l generalizing s with
  | nil =>
    cases s with
    | nil => simp
    | cons a as =>
      exact absurd (hsub a (by simp)) (by simp)
  | cons hd tl ih =>
    simp only [List.map_cons, List.nodup_cons] at hl
    by_cases hmem : hd.1 ∈ s
    · have hcong : tl.filter (fun p => decide (p.1 ∈ s))
          = tl.filter (fun p => decide (p.1 ∈ s.erase hd.1)) := by
        apply List.filter_congr
        intro p hp
        have hne : p.1 ≠ hd.1 := by
          intro he
          exact hl.1 (he ▸ (List.mem_map.mpr ⟨p, hp, rfl⟩))
        by_cases hpm : p.1 ∈ s
        · have : p.1 ∈ s.erase hd.1 := (List.mem_erase_of_ne hne).mpr hpm
          simp [hpm, this]
        · have : p.1 ∉ s.erase hd.1 := fun hx => hpm (List.mem_of_mem_erase hx)
          simp [hpm, this]
      have hlen : s.length = (s.erase hd.1).length + 1 := by
        rw [List.length_erase_of_mem hmem]
        have : 0 < s.length := List.length_pos.mpr (by rintro rfl; simp at hmem)
        omega
      rw [List.filter_cons, if_pos (by simpa using hmem), hcong, hlen, List.length_cons]
      have := ih (s.erase hd.1) hl.2 (hs.erase hd.1)
        (by
          intro x hx
          have hxs : x ∈ s := List.mem_of_mem_erase hx
          have hxne : x ≠ hd.1 := (hs.mem_erase_iff.mp hx).1
          rcases List.mem_cons.mp (hsub x hxs) with h1 | h2
          · exact absurd h1 hxne
          · exact h2)
      omega
    · rw [List.filter_cons, if_neg (by simpa using hmem)]
      apply ih s hl.2 hs
      intro x hx
      rcases List.mem_cons.mp (hsub x hx) with h1 | h2
      · exact absurd (h1 ▸ hx) hmem
      · exact h2

/-! ## Aggregation invariants -/

theorem aggregateAuthInst_seen (ap : List Pub → Pub → List Pub) (pub : Pub)
    (aid an : String) (st : AggState) (inst : InstRec) :
    (aggregateAuthInst ap pub aid an st inst).seen_work_ids = st.seen_work_ids := by
  unfold aggregateAuthInst
  cases optTruthy inst.id with
  | none => rfl
  | some iid =>
    by_cases h1 : (alookup st.institutions iid).isSome <;>
      by_cases h2 : True <;> simp [h1] <;> split <;> rfl

theorem foldl_aggregateAuthInst_seen (ap : List Pub → Pub → List Pub) (pub : Pub)
    (aid an : String) (insts : List InstRec) (st : AggState) :
    (insts.foldl (aggregateAuthInst ap pub aid an) st).seen_work_ids = st.seen_work_ids := by
  induction insts generalizing st with
  | nil => rfl
  | cons hd tl ih => rw [List.foldl_cons, ih, aggregateAuthInst_seen]

theorem aggregateAuthorship_seen (ap : List Pub → Pub → List Pub) (pub : Pub)
    (st : AggState) (auth : Authorship) :
    (aggregateAuthorship ap pub st auth).seen_work_ids = st.seen_work_ids := by
  unfold aggregateAuthorship
  rcases h1 : optTruthy (auth.author.getD ⟨none, none⟩).id with _ | aid <;>
    rcases h2 : auth.institutions.getD [] with _ | ⟨i, is⟩ <;>
      simp [h1, h2, foldl_aggregateAuthInst_seen, aggregateAuthInst_seen]

theorem aggregateWork_seen (ap : List Pub → Pub → List Pub) (pub : Pub)
    (st : AggState) (auths : List Authorship) :
    (aggregateWork ap pub st auths).seen_work_ids = st.seen_work_ids := by
  unfold aggregateWork
  induction auths generalizing st with
  | nil => rfl
  | cons hd tl ih => rw [List.foldl_cons, ih, aggregateAuthorship_seen]

theorem processWorkVenuesBody_seen (code : String) (rk : Bool) (st : AggState) (w : Work) :
    (processWorkVenuesBody code rk st w).seen_work_ids = st.seen_work_ids := by
  unfold processWorkVenuesBody
  cases w.publication_year with
  | none => rfl
  | some y =>
    by_cases h : is_quantum_paper w rk <;> simp [h, aggregateWork_seen]

theorem processResolvedDblpBody_seen (code : String) (rk : Bool)
    (sy ey yi : Int) (dt : String) (st : AggState) (w : Work) :
    (processResolvedDblpBody code rk sy ey yi dt st w).seen_work_ids = st.seen_work_ids := by
  unfold processResolvedDblpBody
  by_cases h1 : dblpEffectiveYear w yi < sy ∨ ey < dblpEffectiveYear w yi
  · simp [h1]
  · by_cases h2 : is_quantum_paper w rk <;> simp [h1, h2, aggregateWork_seen]

/-! ## Characterizing the institution totals and the kept-institution set -/

/-- Total surviving publication count attributed to institution `iid`. -/
def sumPubsAt (ai : List ((String × String) × Entry)) (iid : String) : Nat :=
  ((ai.filter (fun e => decide (e.1.2 = iid))).map (fun e => e.2.publications.length)).sum

theorem sumPubsAt_cons (e : (String × String) × Entry)
    (tl : List ((String × String) × Entry)) (iid : String) :
    sumPubsAt (e :: tl) iid =
      (if e.1.2 = iid then e.2.publications.length else 0) + sumPubsAt tl iid := by
  unfold sumPubsAt
  by_cases h : e.1.2 = iid
  · simp [h, List.filter_cons]
  · simp [h, List.filter_cons]

theorem foldl_instTotalsStep_alookup (ai : List ((String × String) × Entry))
    (acc : List (String × Nat)) (iid : String) :
    alookup (ai.foldl instTotalsStep acc) iid =
      match alookup acc iid with
      | some c => some (c + sumPubsAt ai iid)
      | none =>
        if ai.any (fun e => decide (e.1.2 = iid)) then some (sumPubsAt ai iid) else none := by
  induction ai generalizing acc with
  | nil =>
    cases h : alookup acc iid <;> simp [h, sumPubsAt]
  | cons e tl ih =>
    rw [List.foldl_cons, ih, sumPubsAt_cons]
    by_cases hk : e.1.2 = iid
    · cases hacc : alookup acc e.1.2 with
      | some c =>
        have h1 : alookup (instTotalsStep acc e) iid
            = some (c + e.2.publications.length) := by
          unfold instTotalsStep
          rw [hacc, ← hk, alookup_aupdate_self, hk, ← hk, hacc]
          rfl
        have h2 : alookup acc iid = some c := hk ▸ hacc
        rw [h1, h2]
        simp [hk]
        omega
      | none =>
        have h1 : alookup (instTotalsStep acc e) iid = some e.2.publications.length := by
          unfold instTotalsStep
          rw [hacc, alookup_append, hk]
          have h2 : alookup acc iid = none := hk ▸ hacc
          rw [h2]
          simp [alookup]
        have h2 : alookup acc iid = none := hk ▸ hacc
        rw [h1, h2]
        simp [hk]
    · cases hacc : alookup acc e.1.2 with
      | some c =>
        have h1 : alookup (instTotalsStep acc e) iid = alookup acc iid := by
          unfold instTotalsStep
          rw [hacc]
          exact alookup_aupdate_ne _ _ _ _ (fun h => hk h.symm)
        rw [h1]
        have hdec : decide (e.1.2 = iid) = false := by simp [hk]
        cases halk : alookup acc iid with
        | some c2 => simp [halk, hk]
        | none =>
          simp only [halk, List.any_cons, hdec, Bool.false_or]
          simp [hk]
      | none =>
        have h1 : alookup (instTotalsStep acc e) iid = alookup acc iid := by
          unfold instTotalsStep
          rw [hacc, alookup_append]
          have : alookup [(e.1.2, e.2.publications.length)] iid = none := by
            simp [alookup, hk]
          rw [this, Option.or_none]
        rw [h1]
        have hdec : decide (e.1.2 = iid) = false := by simp [hk]
        cases halk : alookup acc iid with
        | some c2 => simp [halk, hk]
        | none =>
          simp only [halk, List.any_cons, hdec, Bool.false_or]
          simp [hk]

theorem instTotals_alookup (ai : List ((String × String) × Entry)) (iid : String) :
    alookup (instTotals ai) iid =
      if ai.any (fun e => decide (e.1.2 = iid)) then some (sumPubsAt ai iid) else none := by
  unfold instTotals
  rw [foldl_instTotalsStep_alookup]
  rfl

theorem foldl_instTotalsStep_keys_nodup (ai : List ((String × String) × Entry))
    (acc : List (String × Nat)) (h : (acc.map Prod.fst).Nodup) :
    (((ai.foldl instTotalsStep acc)).map Prod.fst).Nodup := by
  induction ai generalizing acc with
  | nil => exact h
  | cons e tl ih =>
    rw [List.foldl_cons]
    apply ih
    unfold instTotalsStep
    cases hacc : alookup acc e.1.2 with
    | some c =>
      rw [keys_aupdate]
      exact h
    | none =>
      rw [List.map_append]
      refine List.Nodup.append h (List.nodup_singleton _) ?_
      intro a ha hb
      simp at hb
      subst hb
      exact (alookup_eq_none_iff acc e.1.2).mp hacc ha

theorem instTotals_keys_nodup (ai : List ((String × String) × Entry)) :
    ((instTotals ai).map Prod.fst).Nodup :=
  foldl_instTotalsStep_keys_nodup ai [] (by simp)

theorem mem_instTotals_keys (ai : List ((String × String) × Entry)) (iid : String) :
    iid ∈ (instTotals ai).map Prod.fst ↔
      ai.any (fun e => decide (e.1.2 = iid)) = true := by
  constructor
  · intro h
    by_contra hany
    have hnone : alookup (instTotals ai) iid = none := by
      rw [instTotals_alookup, if_neg hany]
    exact (alookup_eq_none_iff _ _).mp hnone h
  · intro h
    have hsome : alookup (instTotals ai) iid = some (sumPubsAt ai iid) := by
      rw [instTotals_alookup, if_pos h]
    exact List.mem_map.mpr ⟨(iid, sumPubsAt ai iid), alookup_mem _ _ _ hsome, rfl⟩

theorem sumPubsAt_filter_le (l : List ((String × String) × Entry))
    (p : (String × String) × Entry → Bool) (iid : String) :
    sumPubsAt (l.filter p) iid ≤ sumPubsAt l iid := by
  unfold sumPubsAt
  have hsub : ((l.filter p).filter (fun e => decide (e.1.2 = iid))).Sublist
      (l.filter (fun e => decide (e.1.2 = iid))) :=
    (List.filter_sublist l).filter _
  exact (hsub.map _).sum_le_sum (by intro x hx; positivity)

/-! ## The stable descending sort -/

theorem insertByCountDesc_perm (cnt : String → Nat) (x : String) (l : List String) :
    (insertByCountDesc cnt x l).Perm (x :: l) := by
  induction l with
  | nil => exact List.Perm.refl _
  | cons y ys ih =>
    unfold insertByCountDesc
    by_cases h : cnt y < cnt x
    · simp [h]
    · rw [if_neg h]
      exact (ih.cons y).trans (List.Perm.swap x y ys)

theorem sortByCountDesc_perm (cnt : String → Nat) (l : List String) :
    (sortByCountDesc cnt l).Perm l := by
  unfold sortByCountDesc
  induction l with
  | nil => exact List.Perm.refl _
  | cons y ys ih =>
    rw [List.foldr_cons]
    exact (insertByCountDesc_perm cnt y _).trans (ih.cons y)

/-! ## The kept-institution set -/

theorem keepAfterMin_nodup (totals : List (String × Nat)) (minI : Nat)
    (h : (totals.map Prod.fst).Nodup) : (keepAfterMin totals minI).Nodup := by
  unfold keepAfterMin
  split
  · exact h.sublist ((List.filter_sublist totals).map Prod.fst)
  · exact h

theorem keepAfterMin_subset_keys (totals : List (String × Nat)) (minI : Nat) (x : String)
    (h : x ∈ keepAfterMin totals minI) : x ∈ totals.map Prod.fst := by
  unfold keepAfterMin at h
  split at h
  · rcases List.mem_map.mp h with ⟨pair, hpair, hfst⟩
    exact List.mem_map.mpr ⟨pair, List.mem_of_mem_filter hpair, hfst⟩
  · exact h

theorem mem_keepAfterMin_instTotals (ai : List ((String × String) × Entry))
    (minI : Nat) (iid : String) :
    iid ∈ keepAfterMin (instTotals ai) minI ↔
      ai.any (fun e => decide (e.1.2 = iid)) = true ∧
        (0 < minI → minI ≤ sumPubsAt ai iid) := by
  unfold keepAfterMin
  split
  · rename_i hpos
    constructor
    · intro h
      rcases List.mem_map.mp h with ⟨pair, hpair, hfst⟩
      rcases List.mem_filter.mp hpair with ⟨hmem, hcnt⟩
      have hlk : alookup (instTotals ai) iid = some pair.2 := by
        have := alookup_of_mem_nodup (instTotals ai) pair.1 pair.2
          (instTotals_keys_nodup ai) hmem
        rw [hfst] at this
        exact this
      rw [instTotals_alookup] at hlk
      by_cases hany : ai.any (fun e => decide (e.1.2 = iid)) = true
      · rw [if_pos hany] at hlk
        refine ⟨hany, fun _ => ?_⟩
        have : pair.2 = sumPubsAt ai iid := by
          have := Option.some.inj hlk
          omega
        simp at hcnt
        omega
      · rw [if_neg hany] at hlk
        exact absurd hlk (by simp)
    · rintro ⟨hany, hcnt⟩
      have hlk : alookup (instTotals ai) iid = some (sumPubsAt ai iid) := by
        rw [instTotals_alookup, if_pos hany]
      have hmem : (iid, sumPubsAt ai iid) ∈ instTotals ai := alookup_mem _ _ _ hlk
      exact List.mem_map.mpr ⟨(iid, sumPubsAt ai iid),
        List.mem_filter.mpr ⟨hmem, by simp [hcnt hpos]⟩, rfl⟩
  · rename_i hpos
    rw [mem_instTotals_keys]
    exact ⟨fun h => ⟨h, fun hc => absurd hc hpos⟩, fun h => h.1⟩

theorem keepAfterMin_length_mono (totals : List (String × Nat)) {m m' : Nat} (h : m ≤ m') :
    (keepAfterMin totals m').length ≤ (keepAfterMin totals m).length := by
  unfold keepAfterMin
  by_cases h0 : 0 < m
  · have h0' : 0 < m' := lt_of_lt_of_le h0 h
    rw [if_pos h0, if_pos h0', List.length_map, List.length_map]
    have := List.countP_mono_left (l := totals) (p := fun p => decide (m' ≤ p.2))
      (q := fun p => decide (m ≤ p.2)) (by intro a _ ha; simp at ha ⊢; omega)
    simpa [← List.countP_eq_length_filter] using this
  · rw [if_neg h0]
    by_cases h0' : 0 < m'
    · rw [if_pos h0', List.length_map, List.length_map]
      exact List.length_filter_le _ _
    · rw [if_neg h0']

theorem keepAfterCap_subset (totals : List (String × Nat)) (keep : List String)
    (maxInst : Option Nat) (x : String) (h : x ∈ keepAfterCap totals keep maxInst) :
    x ∈ keep := by
  unfold keepAfterCap at h
  cases maxInst with
  | none => exact h
  | some k =>
    dsimp only at h
    by_cases hk : k < keep.length
    · rw [if_pos hk] at h
      exact (sortByCountDesc_perm _ keep).mem_iff.mp (List.take_subset _ _ h)
    · rw [if_neg hk] at h
      exact h

theorem keepAfterCap_nodup (totals : List (String × Nat)) (keep : List String)
    (maxInst : Option Nat) (h : keep.Nodup) : (keepAfterCap totals keep maxInst).Nodup := by
  unfold keepAfterCap
  cases maxInst with
  | none => exact h
  | some k =>
    dsimp only
    by_cases hk : k < keep.length
    · rw [if_pos hk]
      exact (((sortByCountDesc_perm _ keep).nodup_iff).mpr h).sublist (List.take_sublist _ _)
    · rw [if_neg hk]
      exact h

theorem keepAfterCap_length (totals : List (String × Nat)) (keep : List String)
    (k : Nat) :
    (keepAfterCap totals keep (some k)).length = min k keep.length := by
  unfold keepAfterCap
  dsimp only
  by_cases hk : k < keep.length
  · rw [if_pos hk, List.length_take, (sortByCountDesc_perm _ keep).length_eq]
  · rw [if_neg hk]
    omega

def c2Work : Work := ⟨some "W2", some "T", none, some 2020, none, none,
  [⟨some ⟨some "A", some "Al"⟩, some [⟨some "I", some "In", none⟩]⟩]⟩

def c2State : AggState :=
  ⟨[("I", ⟨"In", "Other"⟩)], [(("A", "I"), ⟨"Al", "I", [⟨2020, "C", "T"⟩]⟩)], []⟩

def c9Work : Work := ⟨some "W9", some "T9", none, none, none, none,
  [⟨some ⟨some "A9", some "Alice"⟩, some [⟨some "I9", some "Inst", none⟩]⟩]⟩

/-! ## Claim theorems -/

/-- C7: the Relevance Filter accepts every work when `requireKeywordMatch`
is false; when it is true, it accepts a work iff some curated keyword is a
substring of the combined lowercased title-and-flattened-abstract text
(`workText`, built exactly as `is_quantum_paper` builds it, with the
token-to-position-list abstract flattened by joining its key set). -/
theorem c7_relevance_filter (w : Work) (rk : Bool) :
    is_quantum_paper w rk = true ↔
      (rk = false ∨ ∃ kw ∈ QUANTUM_KEYWORDS, kw.data <:+: (workText w).data) := by
  unfold is_quantum_paper
  cases rk with
  | false => simp
  | true =>
    simp only [Bool.not_true, Bool.false_eq_true, if_false]
    rw [List.any_eq_true]
    constructor
    · rintro ⟨kw, hkw, hc⟩
      exact Or.inr ⟨kw, hkw, by simpa [strContains] using hc⟩
    · rintro (h | ⟨kw, hkw, hc⟩)
      · exact absurd h (by simp)
      · exact ⟨kw, hkw, by simpa [strContains] using hc⟩

/-- C8: with the source search term tokenized on whitespace, the Venue
Resolver returns exactly the candidates whose lowercased display name
contains every token as a substring, in order; a transport error yields the
empty candidate list. -/
theorem c8_venue_resolver (search : String) (rs : List SourceRec) :
    find_source_ids_for_venue none search = [] ∧
    find_source_ids_for_venue (some rs) search
      = (rs.filter (matchesAllTokens search)).map (fun s => s.id) ∧
    ∀ i, (i ∈ find_source_ids_for_venue (some rs) search ↔
      ∃ src ∈ rs, src.id = i ∧ ∀ tok ∈ pySplitWs search,
        (pyLower tok).data <:+: (pyLower (pyOrStr src.display_name "")).data) := by
  have heq : find_source_ids_for_venue (some rs) search
      = (rs.filter (matchesAllTokens search)).map (fun s => s.id) := by
    unfold find_source_ids_for_venue
    dsimp only
    rw [find_source_ids_foldl_eq]
    simp
  refine ⟨rfl, heq, ?_⟩
  intro i
  rw [heq]
  constructor
  · intro h
    rcases List.mem_map.mp h with ⟨src, hsrc, hid⟩
    rcases List.mem_filter.mp hsrc with ⟨hmem, hmt⟩
    refine ⟨src, hmem, hid, ?_⟩
    intro tok htok
    have := List.all_eq_true.mp hmt tok htok
    simpa [strContains] using this
  · rintro ⟨src, hmem, hid, htoks⟩
    refine List.mem_map.mpr ⟨src, List.mem_filter.mpr ⟨hmem, ?_⟩, hid⟩
    apply List.all_eq_true.mpr
    intro tok htok
    simpa [strContains] using htoks tok htok

/-- C3: in both harvesting paths, a work whose (truthy) identifier is
already in the run-global `seen_work_ids` set is skipped before any
aggregation: the step leaves the state unchanged. -/
theorem c3_seen_work_skipped (code : String) (rk : Bool) (sy ey yi : Int)
    (dt : String) (st : AggState) (w : Work) (wid : String)
    (hid : optTruthy w.id = some wid) (hseen : wid ∈ st.seen_work_ids) :
    processWorkVenues code rk st w = st ∧
    processResolvedDblp code rk sy ey yi dt st w = st := by
  constructor
  · unfold processWorkVenues
    rw [hid]
    simp [hseen]
  · unfold processResolvedDblp
    rw [hid]
    simp [hseen]

def wciWork : Work := ⟨some "W1", none, none, none, none, none, []⟩

def wciState : AggState := ⟨[], [], ["W1"]⟩

theorem c3_witness :
    processWorkVenues "Q" false wciState wciWork = wciState ∧
    processResolvedDblp "Q" false 2005 2025 2020 "t" wciState wciWork = wciState :=
  c3_seen_work_skipped "Q" false 2005 2025 2020 "t" wciState wciWork "W1"
    (by decide) (by decide)

/-- C2 counterexample: in the Cross-Catalog Resolution Bridge path the
publication append is unconditional.  Processing a fresh work whose
`(year, venueCode, title)` triple is already present in the target
`(authorId, institutionId)` entry grows that entry's publication list from
1 to 2, so the append is not idempotent there, contradicting the claim that
idempotence holds in both harvesting paths. -/
theorem c2_bridge_append_duplicates :
    (alookup c2State.author_inst ("A", "I")).map (fun e => e.publications)
      = some [⟨2020, "C", "T"⟩] ∧
    (alookup (processResolvedDblp "C" false 2005 2025 2020 "T" c2State c2Work).author_inst
        ("A", "I")).map (fun e => e.publications.length) = some 2 := by
  decide

/-- C2 amended: the dedup-on-insert append of the direct-iteration path is
idempotent (inserting the same record twice equals inserting it once, and
an insert whose `(year, venueCode, title)` triple is already present leaves
the list unchanged); the bridge path's append is unconditional and lacks
this property. -/
theorem c2_direct_append_idempotent (pubs : List Pub) (pub : Pub) :
    venuesAppendPub (venuesAppendPub pubs pub) pub = venuesAppendPub pubs pub ∧
    ((∃ p ∈ pubs, p.year = pub.year ∧ p.venue = pub.venue ∧ p.title = pub.title) →
      venuesAppendPub pubs pub = pubs) := by
  have hmem : ∀ l : List Pub,
      (∃ p ∈ l, p.year = pub.year ∧ p.venue = pub.venue ∧ p.title = pub.title) →
      (l.any (fun p => p.year == pub.year && p.venue == pub.venue && p.title == pub.title))
        = true := by
    rintro l ⟨p, hp, h1, h2, h3⟩
    exact List.any_eq_true.mpr ⟨p, hp, by simp [h1, h2, h3]⟩
  constructor
  · by_cases h : (pubs.any
        (fun p => p.year == pub.year && p.venue == pub.venue && p.title == pub.title)) = true
    · unfold venuesAppendPub
      rw [if_pos h, if_pos h]
    · unfold venuesAppendPub
      rw [if_neg h]
      rw [if_pos (hmem (pubs ++ [pub]) ⟨pub, List.mem_append_right pubs (by simp),
        rfl, rfl, rfl⟩)]
  · intro hex
    unfold venuesAppendPub
    rw [if_pos (hmem pubs hex)]

theorem c2_witness :
    venuesAppendPub [⟨2020, "Q", "t"⟩] ⟨2020, "Q", "t"⟩ = [⟨2020, "Q", "t"⟩] :=
  (c2_direct_append_idempotent [⟨2020, "Q", "t"⟩] ⟨2020, "Q", "t"⟩).2
    ⟨⟨2020, "Q", "t"⟩, by simp, rfl, rfl, rfl⟩

def aggInit : AggState := ⟨[], [], []⟩

/-- C9 counterexample: a bridge-path work whose `publication_year` is
absent is not dropped; the DBLP year is substituted and the work
contributes an aggregation entry, contradicting the claim that a work with
an absent year contributes nothing in either path. -/
theorem c9_bridge_contributes_without_year :
    c9Work.publication_year = none ∧
    (processResolvedDblp "Q" false 2005 2025 2020 "T9" aggInit c9Work).author_inst ≠ [] := by
  decide

/-- C9 amended: in the direct-iteration path a work with an absent
`publication_year` contributes nothing to the aggregate (institutions and
entries unchanged; only the dedup set may grow); in the bridge path such a
work is processed exactly as if its year were the secondary index's
`year_int`. -/
theorem c9_year_handling (code : String) (rk : Bool) (sy ey yi : Int) (dt : String)
    (st : AggState) (w : Work) (hy : w.publication_year = none) :
    (processWorkVenues code rk st w).institutions = st.institutions ∧
    (processWorkVenues code rk st w).author_inst = st.author_inst ∧
    processResolvedDblpBody code rk sy ey yi dt st w
      = processResolvedDblpBody code rk sy ey yi dt st
          { w with publication_year := some yi } := by
  have hbody : ∀ st' : AggState, processWorkVenuesBody code rk st' w = st' := by
    intro st'
    unfold processWorkVenuesBody
    rw [hy]
  refine ⟨?_, ?_, ?_⟩
  · unfold processWorkVenues
    cases hid : optTruthy w.id with
    | none => rw [hbody]
    | some wid =>
      by_cases hseen : wid ∈ st.seen_work_ids
      · simp [hseen]
      · simp [hseen, hbody]
  · unfold processWorkVenues
    cases hid : optTruthy w.id with
    | none => rw [hbody]
    | some wid =>
      by_cases hseen : wid ∈ st.seen_work_ids
      · simp [hseen]
      · simp [hseen, hbody]
  · have h3 : dblpEffectiveYear w yi = yi := by
      unfold dblpEffectiveYear
      rw [hy]
    have h4 : dblpEffectiveYear { w with publication_year := some yi } yi = yi := by
      unfold dblpEffectiveYear
      simp
    unfold processResolvedDblpBody
    rw [h3, h4]
    rfl

/-- C10: in both harvesting paths a work's truthy identifier ends up in
`seen_work_ids` after the step regardless of the year check or the
relevance filter (it is inserted before them), and a work with a falsy
identifier bypasses deduplication entirely: the step neither reads nor
writes the seen set and processes the work unconditionally. -/
theorem c10_sticky_dedup (code : String) (rk : Bool) (sy ey yi : Int) (dt : String)
    (st : AggState) (w : Work) (wid : String) :
    (optTruthy w.id = some wid →
      wid ∈ (processWorkVenues code rk st w).seen_work_ids ∧
      wid ∈ (processResolvedDblp code rk sy ey yi dt st w).seen_work_ids) ∧
    (optTruthy w.id = none →
      processWorkVenues code rk st w = processWorkVenuesBody code rk st w ∧
      processResolvedDblp code rk sy ey yi dt st w
        = processResolvedDblpBody code rk sy ey yi dt st w ∧
      (processWorkVenues code rk st w).seen_work_ids = st.seen_work_ids ∧
      (processResolvedDblp code rk sy ey yi dt st w).seen_work_ids
        = st.seen_work_ids) := by
  constructor
  · intro hid
    constructor
    · unfold processWorkVenues
      rw [hid]
      by_cases hseen : wid ∈ st.seen_work_ids
      · simpa [hseen] using hseen
      · simp [hseen, processWorkVenuesBody_seen]
    · unfold processResolvedDblp
      rw [hid]
      by_cases hseen : wid ∈ st.seen_work_ids
      · simpa [hseen] using hseen
      · simp [hseen, processResolvedDblpBody_seen]
  · intro hid
    refine ⟨?_, ?_, ?_, ?_⟩
    · unfold processWorkVenues
      rw [hid]
    · unfold processResolvedDblp
      rw [hid]
    · unfold processWorkVenues
      rw [hid, processWorkVenuesBody_seen]
    · unfold processResolvedDblp
      rw [hid, processResolvedDblpBody_seen]

theorem c9_witness :
    (processWorkVenues "Q" false aggInit c9Work).institutions = aggInit.institutions ∧
    (processWorkVenues "Q" false aggInit c9Work).author_inst = aggInit.author_inst ∧
    processResolvedDblpBody "Q" false 2005 2025 2020 "T9" aggInit c9Work
      = processResolvedDblpBody "Q" false 2005 2025 2020 "T9" aggInit
          { c9Work with publication_year := some 2020 } :=
  c9_year_handling "Q" false 2005 2025 2020 "T9" aggInit c9Work rfl

theorem c10_witness :
    "W1" ∈ (processWorkVenues "Q" false aggInit wciWork).seen_work_ids ∧
    "W1" ∈ (processResolvedDblp "Q" false 2005 2025 2020 "t" aggInit wciWork).seen_work_ids :=
  (c10_sticky_dedup "Q" false 2005 2025 2020 "t" aggInit wciWork "W1").1 (by decide)

/-! ## C1 and C5: the Paginating Work Iterator -/

theorem fdiv_mid_bounds (y0 y1 : Int) (h : y0 < y1) :
    y0 ≤ Int.fdiv (y0 + y1) 2 ∧ Int.fdiv (y0 + y1) 2 < y1 := by
  rw [Int.fdiv_eq_ediv _ (by norm_num)]
  omega

/-- C1: the range bisection of `_iter_year_range` always terminates.  The
fuelled embedding returns a result whenever the fuel exceeds the width of
the year range: each over-cap bisection at `(y0 + y1) // 2` strictly
shrinks the width of both halves, and a single-year range is never split,
so `width + 1` recursion depth always suffices, for every oracle, page
size, page cap and year range. -/
theorem c1_bisection_terminates (oracle : PageOracle) (perPage maxPagesByApi fuel : Nat)
    (y0 y1 : Int) (h : (y1 - y0).toNat < fuel) :
    (iterYearRangeF oracle perPage maxPagesByApi fuel y0 y1).isSome = true := by
  induction fuel generalizing y0 y1 with
  | zero => omega
  | succ n ih =>
    rw [iterYearRangeF]
    cases horacle : oracle y0 y1 1 with
    | err409 => simp
    | errOther => simp
    | ok total results =>
      simp only []
      by_cases hc : (overCapTotal total && decide (y0 < y1)) = true
      · rw [if_pos hc]
        have hy : y0 < y1 := by
          have := (Bool.and_eq_true _ _).mp hc
          exact of_decide_eq_true this.2
        obtain ⟨hm1, hm2⟩ := fdiv_mid_bounds y0 y1 hy
        have hl : (Int.fdiv (y0 + y1) 2 - y0).toNat < n := by omega
        have hr : (y1 - (Int.fdiv (y0 + y1) 2 + 1)).toNat < n := by omega
        obtain ⟨l, hl'⟩ := Option.isSome_iff_exists.mp (ih y0 (Int.fdiv (y0 + y1) 2) hl)
        obtain ⟨r, hr'⟩ := Option.isSome_iff_exists.mp (ih (Int.fdiv (y0 + y1) 2 + 1) y1 hr)
        rw [hl', hr']
        by_cases hraised : l.raised <;> simp [hraised]
      · rw [if_neg hc]
        simp

def c1Oracle : PageOracle := fun _ _ _ => PageResp.ok (some 0) []

theorem c1_witness :
    (iterYearRangeF c1Oracle 200 50 21 2005 2025).isSome = true :=
  c1_bisection_terminates c1Oracle 200 50 21 2005 2025 (by decide)

theorem pageLoop_logs_only_409 (fetch : Nat → PageResp) (limit : Nat) (y0 y1 : Int)
    (page : Nat) (fr : List Work) :
    ∀ e ∈ (pageLoop fetch limit y0 y1 page fr).logs, ∃ p, e = LogEvent.warn409 y0 y1 p := by
  induction page, fr using pageLoop.induct fetch limit y0 y1 with
  | case1 page fr hpre =>
    rw [pageLoop, if_pos hpre]
    simp
  | case2 page fr hpre hfetch =>
    rw [pageLoop, if_neg hpre,
      show (if page = 1 then PageResp.ok none fr else fetch page) = PageResp.err409 from hfetch]
    intro e he
    simp at he
    exact ⟨page, he⟩
  | case3 page fr hpre hfetch =>
    rw [pageLoop, if_neg hpre,
      show (if page = 1 then PageResp.ok none fr else fetch page) = PageResp.errOther from hfetch]
    simp
  | case4 page fr hpre total hfetch =>
    rw [pageLoop, if_neg hpre,
      show (if page = 1 then PageResp.ok none fr else fetch page)
        = PageResp.ok total [] from hfetch]
    simp
  | case5 page fr hpre total current hfetch hcur hstop =>
    rw [pageLoop, if_neg hpre,
      show (if page = 1 then PageResp.ok none fr else fetch page)
        = PageResp.ok total current from hfetch]
    simp only [if_neg hcur, dif_pos hstop]
    simp
  | case6 page fr hpre total current hfetch hcur hstop ih =>
    rw [pageLoop, if_neg hpre,
      show (if page = 1 then PageResp.ok none fr else fetch page)
        = PageResp.ok total current from hfetch]
    simp only [if_neg hcur, dif_neg hstop]
    exact ih

/-- C5 amended: every warning `_iter_year_range` ever logs is the 409
out-of-range-page warning; in particular no cap-exceeded warning is emitted
for a terminal single-year range whose reported total exceeds 10000 — such
a range is truncated silently at the effective page limit. -/
theorem c5_only_409_warnings (oracle : PageOracle) (perPage maxPagesByApi fuel : Nat)
    (y0 y1 : Int) (out : IterOut)
    (h : iterYearRangeF oracle perPage maxPagesByApi fuel y0 y1 = some out) :
    ∀ e ∈ out.logs, ∃ a b p, e = LogEvent.warn409 a b p := by
  induction fuel generalizing y0 y1 out with
  | zero => simp [iterYearRangeF] at h
  | succ n ih =>
    rw [iterYearRangeF] at h
    cases horacle : oracle y0 y1 1 with
    | err409 =>
      simp only [horacle] at h
      cases h
      simp
    | errOther =>
      simp only [horacle] at h
      cases h
      simp
    | ok total results =>
      simp only [horacle] at h
      by_cases hc : (overCapTotal total && decide (y0 < y1)) = true
      · rw [if_pos hc] at h
        cases hl' : iterYearRangeF oracle perPage maxPagesByApi n y0 (Int.fdiv (y0 + y1) 2) with
        | none =>
          rw [hl'] at h
          cases hr' : iterYearRangeF oracle perPage maxPagesByApi n
              (Int.fdiv (y0 + y1) 2 + 1) y1 <;> simp [hr'] at h
        | some l =>
          rw [hl'] at h
          cases hr' : iterYearRangeF oracle perPage maxPagesByApi n
              (Int.fdiv (y0 + y1) 2 + 1) y1 with
          | none =>
            simp [hr'] at h
          | some r =>
            rw [hr'] at h
            simp only [] at h
            by_cases hraised : l.raised = true
            · rw [if_pos hraised] at h
              cases h
              exact ih _ _ _ hl'
            · rw [if_neg hraised] at h
              cases h
              intro e he
              rcases List.mem_append.mp he with h1 | h2
              · exact ih _ _ _ hl' e h1
              · exact ih _ _ _ hr' e h2
      · rw [if_neg hc] at h
        cases h
        intro e he
        obtain ⟨p, hp⟩ := pageLoop_logs_only_409 (oracle y0 y1)
          (effectivePageLimit maxPagesByApi perPage total) y0 y1 1 results e he
        exact ⟨y0, y1, p, hp⟩

def c5Work : Work := ⟨some "W5", none, none, none, none, none, []⟩

def c5MixOracle : PageOracle := fun _ _ p =>
  if p = 1 then PageResp.ok (some 400) [c5Work] else PageResp.err409

theorem c5_amended_witness :
    ∃ a b p, LogEvent.warn409 2020 2020 2 = LogEvent.warn409 a b p :=
  c5_only_409_warnings c5MixOracle 200 (max_pages_by_api 200 none) 1 2020 2020
    ⟨[c5Work], [LogEvent.warn409 2020 2020 2], false⟩
    (by
      rw [show max_pages_by_api 200 none = 50 from rfl]
      rw [iterYearRangeF]
      rw [show c5MixOracle 2020 2020 1 = PageResp.ok (some 400) [c5Work] from rfl]
      simp only []
      rw [if_neg (by decide)]
      rw [show effectivePageLimit 50 200 (some 400) = 2 from rfl]
      rw [pageLoop, pageLoop]
      norm_num [c5MixOracle])
    (LogEvent.warn409 2020 2020 2) (by simp)

def c5Oracle : PageOracle := fun _ _ _ => PageResp.ok (some 20000) [c5Work]

/-- C5 counterexample: a terminal single-year range `[2020, 2020]` whose
reported total (20000) exceeds the 10000 ceiling is paginated up to the
effective page limit and accepted with an empty log — no warning of any
kind is emitted, contradicting the claim that every such terminal range
produces an explicit logged warning. -/
theorem c5_no_cap_warning :
    overCapTotal (some 20000) = true ∧
    iterYearRangeF c5Oracle 10000 (max_pages_by_api 10000 none) 1 2020 2020
      = some ⟨[c5Work], [], false⟩ := by
  refine ⟨rfl, ?_⟩
  rw [show max_pages_by_api 10000 none = 1 from rfl]
  rw [iterYearRangeF]
  rw [show c5Oracle 2020 2020 1 = PageResp.ok (some 20000) [c5Work] from rfl]
  simp only []
  rw [if_neg (by decide)]
  rw [show effectivePageLimit 1 10000 (some 20000) = 1 from rfl]
  rw [pageLoop]
  norm_num

/-! ## C4: the Resolution Cache -/

theorem alookup_dictInsert {α : Type} (l : List (String × α)) (k : String) (v : α) :
    alookup (dictInsert l k v) k = some v := by
  unfold dictInsert
  by_cases h : (alookup l k).isSome
  · rw [if_pos h]
    rcases Option.isSome_iff_exists.mp h with ⟨w, hw⟩
    rw [alookup_aupdate_self, hw]
    rfl
  · rw [if_neg h, alookup_append]
    rw [Option.not_isSome_iff_eq_none.mp h]
    simp [alookup]

/-- C4 amended: a cache hit (by DOI, or by the `lowercased-title[|year]`
key) returns the stored record with no network call and no cache change;
a successful resolution (a DOI that resolves to a work, or a title search
with a non-empty result list) stores the slimmed work in the cache under
its key and returns it.  Outcomes that resolve to no match are returned as
the empty record but are not stored. -/
theorem c4_cache_behavior (netD : String → DoiNet) (netT : String → Option Int → TitleNet)
    (cache : OpenAlexCache) (doi : String) (w data : Work) (title0 : String)
    (yh : Option Int) (results : List Work) :
    (doi ≠ "" → alookup cache.doi doi = some w →
      fetch_openalex_work_by_doi netD cache doi = (some w, cache, false)) ∧
    (doi ≠ "" → alookup cache.doi doi = none → netD doi = DoiNet.ok (some data) →
      fetch_openalex_work_by_doi netD cache doi
        = (some (_slim_openalex_work data),
           { cache with doi := dictInsert cache.doi doi (_slim_openalex_work data) }, true) ∧
      alookup (fetch_openalex_work_by_doi netD cache doi).2.1.doi doi
        = some (_slim_openalex_work data)) ∧
    (pyStrip title0 ≠ "" →
      alookup cache.title (titleCacheKey (pyStrip title0) yh) = some w →
      search_openalex_work_by_title netT cache title0 yh = (some w, cache, false)) ∧
    (pyStrip title0 ≠ "" →
      alookup cache.title (titleCacheKey (pyStrip title0) yh) = none →
      netT (pyStrip title0) yh = TitleNet.ok results → results ≠ [] →
      (search_openalex_work_by_title netT cache title0 yh).1
        = some (_slim_openalex_work (chooseTitleResult results yh)) ∧
      alookup (search_openalex_work_by_title netT cache title0 yh).2.1.title
          (titleCacheKey (pyStrip title0) yh)
        = some (_slim_openalex_work (chooseTitleResult results yh))) := by
  refine ⟨?_, ?_, ?_, ?_⟩
  · intro hd hhit
    unfold fetch_openalex_work_by_doi
    rw [if_neg hd, hhit]
  · intro hd hmiss hnet
    have heq : fetch_openalex_work_by_doi netD cache doi
        = (some (_slim_openalex_work data),
           { cache with doi := dictInsert cache.doi doi (_slim_openalex_work data) }, true) := by
      unfold fetch_openalex_work_by_doi
      rw [if_neg hd, hmiss, hnet]
    refine ⟨heq, ?_⟩
    rw [heq]
    exact alookup_dictInsert cache.doi doi (_slim_openalex_work data)
  · intro ht hhit
    unfold search_openalex_work_by_title
    rw [if_neg ht, hhit]
  · intro ht hmiss hnet hres
    simp only [search_openalex_work_by_title]
    rw [if_neg ht]
    simp only [hmiss, hnet]
    rw [if_neg hres]
    exact ⟨rfl, alookup_dictInsert _ _ _⟩

def emptyCache : OpenAlexCache := ⟨[], []⟩

def c4Data : Work := ⟨some "W4", some "T4", none, some 2020, none, none, []⟩

def c4OkNet : String → DoiNet := fun _ => DoiNet.ok (some c4Data)

def c4HitCache : OpenAlexCache := ⟨[("d1", c4Data)], []⟩

theorem c4_witness :
    fetch_openalex_work_by_doi c4OkNet c4HitCache "d1" = (some c4Data, c4HitCache, false) :=
  (c4_cache_behavior c4OkNet (fun _ _ => TitleNet.err) c4HitCache "d1" c4Data c4Data
    "t" none []).1 (by decide) (by decide)

def c4NotFoundNet : String → DoiNet := fun _ => DoiNet.notFound

/-- C4 counterexample: a DOI lookup whose outcome is "no match" (HTTP 404)
is not stored in the Resolution Cache — the cache is returned unchanged and
a later lookup of the same DOI still finds nothing — contradicting the
claim that every resolution outcome, including no-match outcomes, is
cached. -/
theorem c4_no_match_not_cached :
    fetch_openalex_work_by_doi c4NotFoundNet emptyCache "10.1000/x"
      = (none, emptyCache, true) ∧
    alookup (fetch_openalex_work_by_doi c4NotFoundNet emptyCache "10.1000/x").2.1.doi
      "10.1000/x" = none := by
  decide

/-! ## C6: threshold monotonicity -/

theorem keepAfterCap_none (totals : List (String × Nat)) (keep : List String) :
    keepAfterCap totals keep none = keep := rfl

/-- C6 amended: raising `min_papers_per_institution` never increases the
number of retained institutions (with or without a `max_institutions`
cap), and, when no cap is configured, raising `min_papers_per_author`
never increases the number of retained `(authorId, institutionId)`
entries.  With a cap configured, the retained entry count is **not**
monotone in `min_papers_per_author` (see the counterexample). -/
theorem c6_threshold_monotonicity (ai : List ((String × String) × Entry))
    (insts : List (String × InstInfo)) (minA minA' minI minI' : Nat) (maxInst : Option Nat)
    (hsub : ∀ e ∈ ai, e.1.2 ∈ insts.map Prod.fst)
    (hnd : (insts.map Prod.fst).Nodup) :
    (minA ≤ minA' →
      (applyThresholds ai insts minA' minI none).1.length
        ≤ (applyThresholds ai insts minA minI none).1.length) ∧
    (minI ≤ minI' →
      (applyThresholds ai insts minA minI' maxInst).2.length
        ≤ (applyThresholds ai insts minA minI maxInst).2.length) := by
  constructor
  · intro hA
    simp only [applyThresholds]
    rw [List.filter_filter, List.filter_filter,
      ← List.countP_eq_length_filter, ← List.countP_eq_length_filter]
    apply List.countP_mono_left
    intro e he hcond
    simp only [Bool.and_eq_true, decide_eq_true_eq] at hcond ⊢
    obtain ⟨hkeep', hlen'⟩ := hcond
    refine ⟨?_, le_trans hA hlen'⟩
    unfold keepSet at hkeep' ⊢
    rw [keepAfterCap_none] at hkeep' ⊢
    rw [mem_keepAfterMin_instTotals] at hkeep' ⊢
    obtain ⟨hany', hcnt'⟩ := hkeep'
    have heA : e ∈ ai.filter (fun e => decide (minA ≤ e.2.publications.length)) :=
      List.mem_filter.mpr ⟨he, by simp; omega⟩
    constructor
    · exact List.any_eq_true.mpr ⟨e, heA, by simp⟩
    · intro hpos
      have h1 := hcnt' hpos
      have hmono : sumPubsAt
            (ai.filter (fun e => decide (minA' ≤ e.2.publications.length))) e.1.2
          ≤ sumPubsAt
            (ai.filter (fun e => decide (minA ≤ e.2.publications.length))) e.1.2 := by
        rw [filter_of_filter_stronger ai (fun e => decide (minA ≤ e.2.publications.length))
          (fun e => decide (minA' ≤ e.2.publications.length))
          (by intro a _ hq; simp at hq ⊢; omega)]
        exact sumPubsAt_filter_le _ _ _
      omega
  · intro hI
    have keyfact : ∀ mI : Nat,
        (insts.filter (fun p => decide (p.1 ∈ keepSet ai minA mI maxInst))).length
          = (keepSet ai minA mI maxInst).length := by
      intro mI
      apply length_filter_keys_mem insts _ hnd
      · exact keepAfterCap_nodup _ _ _
          (keepAfterMin_nodup _ _ (instTotals_keys_nodup _))
      · intro x hx
        have hx1 : x ∈ keepAfterMin
            (instTotals (ai.filter (fun e => decide (minA ≤ e.2.publications.length)))) mI :=
          keepAfterCap_subset _ _ _ _ hx
        have hx2 := (mem_keepAfterMin_instTotals _ _ _).mp hx1
        obtain ⟨eh, heai1, heq⟩ := List.any_eq_true.mp hx2.1
        have hmem : eh ∈ ai := List.mem_of_mem_filter heai1
        have := hsub eh hmem
        simp only [decide_eq_true_eq] at heq
        rwa [heq] at this
    simp only [applyThresholds]
    rw [keyfact minI, keyfact minI']
    unfold keepSet
    cases maxInst with
    | none =>
      rw [keepAfterCap_none, keepAfterCap_none]
      exact keepAfterMin_length_mono _ hI
    | some k =>
      rw [keepAfterCap_length, keepAfterCap_length]
      have := keepAfterMin_length_mono
        (instTotals (ai.filter (fun e => decide (minA ≤ e.2.publications.length)))) hI
      omega

def c6PubList (n : Nat) : List Pub := (List.range n).map (fun i => ⟨(i : Int), "V", "t"⟩)

def c6AI : List ((String × String) × Entry) := [
  (("a1", "X"), ⟨"a1", "X", c6PubList 100⟩),
  (("a2", "X"), ⟨"a2", "X", c6PubList 1⟩),
  (("a3", "X"), ⟨"a3", "X", c6PubList 1⟩),
  (("b1", "Y"), ⟨"b1", "Y", c6PubList 11⟩),
  (("b2", "Y"), ⟨"b2", "Y", c6PubList 10⟩),
  (("b3", "Y"), ⟨"b3", "Y", c6PubList 10⟩),
  (("b4", "Y"), ⟨"b4", "Y", c6PubList 10⟩),
  (("b5", "Y"), ⟨"b5", "Y", c6PubList 10⟩),
  (("b6", "Y"), ⟨"b6", "Y", c6PubList 10⟩),
  (("b7", "Y"), ⟨"b7", "Y", c6PubList 10⟩),
  (("b8", "Y"), ⟨"b8", "Y", c6PubList 10⟩),
  (("b9", "Y"), ⟨"b9", "Y", c6PubList 10⟩),
  (("b10", "Y"), ⟨"b10", "Y", c6PubList 10⟩)]

def c6Insts : List (String × InstInfo) := [("X", ⟨"XU", "Other"⟩), ("Y", ⟨"YU", "Other"⟩)]

/-- C6 counterexample: with `max_institutions = 1`, raising
`min_papers_per_author` from 1 to 10 *increases* the number of retained
`(authorId, institutionId)` entries from 3 to 10: at threshold 1
institution X (total 102, three entries) wins the cap over Y (total 101,
ten entries), while at threshold 10 X's two single-publication entries die
(total 100) and Y (total 101, all ten entries surviving) wins instead. -/
theorem c6_cap_breaks_monotonicity :
    (applyThresholds c6AI c6Insts 1 0 (some 1)).1.length = 3 ∧
    (applyThresholds c6AI c6Insts 10 0 (some 1)).1.length = 10 ∧
    ¬ ((applyThresholds c6AI c6Insts 10 0 (some 1)).1.length
        ≤ (applyThresholds c6AI c6Insts 1 0 (some 1)).1.length) := by
  refine ⟨by decide, by decide, by decide⟩

theorem c6_witness :
    ((applyThresholds c6AI c6Insts 2 0 none).1.length
      ≤ (applyThresholds c6AI c6Insts 1 0 none).1.length) ∧
    ((applyThresholds c6AI c6Insts 1 5 (some 1)).2.length
      ≤ (applyThresholds c6AI c6Insts 1 0 (some 1)).2.length) :=
  ⟨(c6_threshold_monotonicity c6AI c6Insts 1 2 0 0 none (by decide) (by decide)).1
      (by norm_num),
   (c6_threshold_monotonicity c6AI c6Insts 1 1 0 5 (some 1) (by decide) (by decide)).2
      (by norm_num)⟩

end QuantumRankings
